import Mathlib

/-!
Verification of the storage/index core of the skill-builder repository.

The development shallowly embeds the Rust source:
* `src/index.rs`   — `IndexEntry`, `SkillsIndex`, `compare_semver`, `load_index`, `save_index`
* `src/repository.rs` — `Repository::download`, `Repository::delete`
* `src/install_resolver.rs` — `resolve_and_install` and its three source attempts
* `src/storage.rs` / `src/s3.rs` (mock) / `src/local_storage.rs` — the
  `StorageOperations` trait and its in-memory/filesystem backends.

Rust `HashMap<String, String>` values are modelled as association lists
(`List (String × String)`); `HashMap` iteration order is unspecified in Rust,
and the list order is one admissible order.  Machine integers (`u64` version
components) are `Nat` with an explicit range check where parsing matters.
Fallible Rust code returns `Except`.  String scanning is done over `toList`
with structurally recursive helpers mirroring the Rust string methods.
-/

/-- Rust `str::split(sep)` over the character list: splitting an empty string
yields one empty piece, a separator at either end yields an empty piece there. -/
def splitOnChar (sep : Char) : List Char → List (List Char)
  | [] => [[]]
  | c :: cs =>
    let r := splitOnChar sep cs
    if c = sep then [] :: r
    else
      match r with
      | [] => [[c]]
      | w :: ws => (c :: w) :: ws

/-- Value of an ASCII decimal digit, `none` for any other character. -/
def charDigit? (c : Char) : Option Nat :=
  let n := c.toNat
  if 48 ≤ n ∧ n ≤ 57 then some (n - 48) else none

/-- Accumulate the decimal value of a digit run; `none` as soon as a
non-digit appears. -/
def digitsVal : List Char → Option Nat → Option Nat
  | [], acc => acc
  | c :: cs, acc =>
    match acc, charDigit? c with
    | some a, some d => digitsVal cs (some (a * 10 + d))
    | _, _ => none

/-- Rust `str::parse::<u64>()`: an optional leading `+`, then one or more
decimal ASCII digits, and the value must fit in 64 bits. -/
def parseU64 (cs : List Char) : Option Nat :=
  let t := match cs with
    | '+' :: rest => rest
    | _ => cs
  if t.isEmpty then none
  else
    match digitsVal t (some 0) with
    | some n => if n < 18446744073709551616 then some n else none
    | none => none

/-- The numeric components kept by `compare_semver`'s `parse` closure
(src/index.rs:123-128): strip leading `v`s (`trim_start_matches`), split on
`.`, and keep only the components that parse as `u64`
(`filter_map(|p| p.parse().ok())`). -/
def semverComponents (s : String) : List Nat :=
  ((splitOnChar '.' (s.toList.dropWhile (· = 'v'))).map parseU64).filterMap id

/-- The `for i in 0..3` loop of `compare_semver` (src/index.rs:133-140):
compare component `i` of both sides (missing components default to 0),
returning the first non-equal ordering. -/
def semverLoop (va vb : List Nat) : List Nat → Ordering
  | [] => .eq
  | i :: is =>
    match compare (va.getD i 0) (vb.getD i 0) with
    | .eq => semverLoop va vb is
    | o => o

/-- `compare_semver` (src/index.rs:122-142). -/
def compare_semver (a b : String) : Ordering :=
  semverLoop (semverComponents a) (semverComponents b) [0, 1, 2]

/-- A single skill entry in the index (src/index.rs:13-25).  The
`versions : HashMap<String, String>` map is modelled as an association list. -/
structure IndexEntry where
  name : String
  description : String
  llms_txt_url : String
  versions : List (String × String)
deriving DecidableEq, Repr

/-- The top-level skills index (src/index.rs:29-32). -/
structure SkillsIndex where
  skills : List IndexEntry
deriving DecidableEq, Repr

/-- `HashMap::insert` on the association-list model: replace the value of an
existing key in place, otherwise append the new pair. -/
def Versions.insert (m : List (String × String)) (k v : String) : List (String × String) :=
  if m.any (fun p => p.1 == k) then
    m.map (fun p => if p.1 == k then (k, v) else p)
  else
    m ++ [(k, v)]

/-- `HashMap::get` on the association-list model. -/
def Versions.get (m : List (String × String)) (k : String) : Option String :=
  (m.find? (fun p => p.1 == k)).map (·.2)

/-- `HashMap::remove` on the association-list model (a `HashMap` holds each
key at most once; removal drops every pair with the key). -/
def Versions.remove (m : List (String × String)) (k : String) : List (String × String) :=
  m.filter (fun p => !(p.1 == k))

/-- `SkillsIndex::new` (src/index.rs:37-39). -/
def SkillsIndex.new : SkillsIndex := ⟨[]⟩

/-- `SkillsIndex::find_skill` (src/index.rs:43-45). -/
def SkillsIndex.find_skill (idx : SkillsIndex) (name : String) : Option IndexEntry :=
  idx.skills.find? (fun s => s.name == name)

/-- The mutation performed through `find_skill_mut` (src/index.rs:48-50):
apply `f` to the first entry whose name matches, leave the rest unchanged. -/
def updateFirstEntry (l : List IndexEntry) (name : String) (f : IndexEntry → IndexEntry) :
    List IndexEntry :=
  match l with
  | [] => []
  | e :: es => if e.name == name then f e :: es else e :: updateFirstEntry es name f

/-- `SkillsIndex::add_or_update_skill` (src/index.rs:53-79).  Returns the
updated index and the `bool` (true when it was an update of an existing
entry). -/
def SkillsIndex.add_or_update_skill (idx : SkillsIndex) (name description llms_txt_url
    version s3_path : String) : SkillsIndex × Bool :=
  if (idx.find_skill name).isSome then
    (⟨updateFirstEntry idx.skills name (fun e =>
        { e with
          description := description
          llms_txt_url := llms_txt_url
          versions := Versions.insert e.versions version s3_path })⟩, true)
  else
    (⟨idx.skills ++ [⟨name, description, llms_txt_url, [(version, s3_path)]⟩]⟩, false)

/-- `SkillsIndex::remove_skill` (src/index.rs:82-86): retain entries with a
different name and report whether the length shrank. -/
def SkillsIndex.remove_skill (idx : SkillsIndex) (name : String) : SkillsIndex × Bool :=
  let skills' := idx.skills.filter (fun s => !(s.name == name))
  (⟨skills'⟩, skills'.length < idx.skills.length)

/-- `SkillsIndex::remove_version` (src/index.rs:90-100): remove one version
mapping from the first matching entry; if that entry's version map becomes
empty, remove the skill entirely. -/
def SkillsIndex.remove_version (idx : SkillsIndex) (name version : String) :
    SkillsIndex × Bool :=
  match idx.find_skill name with
  | none => (idx, false)
  | some entry =>
    let existed := entry.versions.any (fun p => p.1 == version)
    let newVersions := Versions.remove entry.versions version
    let idx1 : SkillsIndex :=
      ⟨updateFirstEntry idx.skills name (fun e =>
        { e with versions := Versions.remove e.versions version })⟩
    let idx2 := if newVersions.isEmpty then (idx1.remove_skill name).1 else idx1
    (idx2, existed)

/-- Rust `Iterator::max_by`: fold keeping the accumulator only when it
compares strictly greater, so among equal maxima the last one wins. -/
def maxByLast (cmp : α → α → Ordering) : List α → Option α
  | [] => none
  | x :: xs => some (xs.foldl (fun acc b => if cmp acc b = .gt then acc else b) x)

/-- `SkillsIndex::latest_version` (src/index.rs:104-112): the maximum of the
entry's version keys under `compare_semver`. -/
def SkillsIndex.latest_version (idx : SkillsIndex) (name : String) : Option String :=
  (idx.find_skill name).bind (fun entry =>
    maxByLast compare_semver (entry.versions.map (·.1)))

example : compare_semver "1.0.0" "1.0.0" = .eq := by decide
example : compare_semver "2.0.0" "1.0.0" = .gt := by decide
example : compare_semver "1.0.0" "2.0.0" = .lt := by decide
example : compare_semver "1.2.0" "1.1.0" = .gt := by decide
example : compare_semver "1.0.1" "1.0.0" = .gt := by decide
example : compare_semver "v1.2" "1.2.0" = .eq := by decide
example : semverComponents "1.x.3" = [1, 3] := by decide
example :
    ((((SkillsIndex.new.add_or_update_skill "a" "d" "u" "1.0.0" "p").1.add_or_update_skill
      "a" "d" "u" "2.1.0" "p").1.add_or_update_skill
      "a" "d" "u" "1.5.0" "p").1).latest_version "a" = some "2.1.0" := by decide

/-- JSON values, restricted to the constructors the index schema uses
(strings, arrays, objects).  This is the parse of a serialized document at
the value level; the text layer (UTF-8 + `serde_json` grammar) is the
external library's faithful codec. -/
inductive Json where
  | str (s : String)
  | arr (elems : List Json)
  | obj (fields : List (String × Json))

/-- A byte string held in a store.  `json j` stands for the byte strings
that are valid UTF-8 and parse as the JSON document `j`; `bytes bs` stands
for the byte strings that are not valid UTF-8 or not valid JSON text. -/
inductive Blob where
  | bytes (bs : List Nat)
  | json (j : Json)

/-- Storage error taxonomy (spec section 7): a distinct missing-key error
versus transport/IO failures. -/
inductive StErr where
  | notFound
  | transport
  | ioError
deriving DecidableEq, Repr

/-- The `StorageOperations` trait (src/storage.rs): one state type per
backend, every operation returns its result together with the possibly
changed backend state (Rust uses `&self` with interior mutability). -/
structure StoreOps (σ : Type) where
  putObject : σ → String → Blob → Except StErr Unit × σ
  getObject : σ → String → Except StErr Blob × σ
  deleteObject : σ → String → Except StErr Unit × σ
  listObjects : σ → String → Except StErr (List String) × σ
  objectExists : σ → String → Except StErr Bool × σ

/-- The in-memory mock backend (`MockS3Client`, src/s3.rs:128-181), a
`HashMap<String, Vec<u8>>` modelled as an association list.  The same
key-to-bytes behaviour is the documented contract of the filesystem backend
(`LocalStorageClient`, src/local_storage.rs). -/
abbrev MapStore := List (String × Blob)

/-- Association-list lookup for `MapStore`. -/
def MapStore.lookup (s : MapStore) (k : String) : Option Blob :=
  (s.find? (fun p => p.1 == k)).map (·.2)

/-- `HashMap::insert` for `MapStore`: overwrite semantics. -/
def MapStore.insert (s : MapStore) (k : String) (d : Blob) : MapStore :=
  if s.any (fun p => p.1 == k) then
    s.map (fun p => if p.1 == k then (k, d) else p)
  else
    s ++ [(k, d)]

/-- The operations of the in-memory mock backend: get fails with a distinct
not-found error for an absent key, delete is idempotent, list filters keys
by string prefix, exists never errors. -/
def mapOps : StoreOps MapStore where
  putObject := fun s k d => (.ok (), s.insert k d)
  getObject := fun s k =>
    (match s.lookup k with
     | some d => .ok d
     | none => .error .notFound, s)
  deleteObject := fun s k => (.ok (), s.filter (fun p => !(p.1 == k)))
  listObjects := fun s pre =>
    (.ok ((s.map (·.1)).filter (fun k => pre.toList.isPrefixOf k.toList)), s)
  objectExists := fun s k => (.ok (s.any (fun p => p.1 == k)), s)

/-- A backend in which every operation fails with a transport error — the
remote S3 backend with its network disabled (src/s3.rs:45-120 surfaces any
non-2xx/transport failure as an error on put/get/delete/list). -/
def deadOps : StoreOps Unit where
  putObject := fun _ _ _ => (.error .transport, ())
  getObject := fun _ _ => (.error .transport, ())
  deleteObject := fun _ _ => (.error .transport, ())
  listObjects := fun _ _ => (.error .transport, ())
  objectExists := fun _ _ => (.error .transport, ())

/-- A backend holding objects whose reads fail with a transport error while
the objects themselves exist — a reachable state of the remote S3 backend
(network failure, permission failure) under the `StorageOperations` trait. -/
def transientFailOps : StoreOps MapStore :=
  { mapOps with getObject := fun s _ => (.error .transport, s) }

/-- Trace entries for instrumenting a backend with the operations issued
against it. -/
inductive StoreOp where
  | putOp (key : String) (data : Blob)
  | getOp (key : String)
  | delOp (key : String)
  | listOp (pre : String)
  | existsOp (key : String)

/-- Instrument a backend: same results and state evolution, plus a log of
every operation issued against it. -/
def StoreOps.traced (ops : StoreOps σ) : StoreOps (σ × List StoreOp) where
  putObject := fun st k d =>
    ((ops.putObject st.1 k d).1, ((ops.putObject st.1 k d).2, st.2 ++ [.putOp k d]))
  getObject := fun st k =>
    ((ops.getObject st.1 k).1, ((ops.getObject st.1 k).2, st.2 ++ [.getOp k]))
  deleteObject := fun st k =>
    ((ops.deleteObject st.1 k).1, ((ops.deleteObject st.1 k).2, st.2 ++ [.delOp k]))
  listObjects := fun st pre =>
    ((ops.listObjects st.1 pre).1, ((ops.listObjects st.1 pre).2, st.2 ++ [.listOp pre]))
  objectExists := fun st k =>
    ((ops.objectExists st.1 k).1, ((ops.objectExists st.1 k).2, st.2 ++ [.existsOp k]))

/-! ### Index (de)serialization (serde derive on `IndexEntry`/`SkillsIndex`) -/

/-- Early-error sequencing of a fallible function over a list (`Vec`
deserialization order). -/
def mapExcept (f : α → Except ε β) : List α → Except ε (List β)
  | [] => .ok []
  | x :: xs =>
    match f x with
    | .error e => .error e
    | .ok y =>
      match mapExcept f xs with
      | .error e => .error e
      | .ok ys => .ok (y :: ys)

/-- Field lookup in a JSON object. -/
def jField (fields : List (String × Json)) (k : String) : Option Json :=
  (fields.find? (fun p => p.1 == k)).map (·.2)

/-- Index load/parse errors: the blob is not UTF-8/JSON text, or the JSON
does not match the index schema. -/
inductive LoadErr where
  | notJson
  | badSchema
deriving DecidableEq, Repr

/-- Expect a JSON string. -/
def jString : Json → Except LoadErr String
  | .str s => .ok s
  | _ => .error .badSchema

/-- Serialize the `versions` map: a JSON object of version → object key. -/
def versionsToJson (m : List (String × String)) : Json :=
  .obj (m.map (fun p => (p.1, .str p.2)))

/-- Serialize one `IndexEntry` (field names per the serde derive /
spec section 6 schema). -/
def entryToJson (e : IndexEntry) : Json :=
  .obj [("name", .str e.name), ("description", .str e.description),
        ("llms_txt_url", .str e.llms_txt_url), ("versions", versionsToJson e.versions)]

/-- Serialize a `SkillsIndex`. -/
def indexToJson (idx : SkillsIndex) : Json :=
  .obj [("skills", .arr (idx.skills.map entryToJson))]

/-- Deserialize the `versions` map: every field value must be a string. -/
def versionsFromJson : Json → Except LoadErr (List (String × String))
  | .obj fields => mapExcept (fun p => (jString p.2).map (fun v => (p.1, v))) fields
  | _ => .error .badSchema

/-- Deserialize one `IndexEntry`: all four fields required. -/
def entryFromJson : Json → Except LoadErr IndexEntry
  | .obj fields =>
    match jField fields "name", jField fields "description",
          jField fields "llms_txt_url", jField fields "versions" with
    | some jn, some jd, some ju, some jv =>
      match jString jn, jString jd, jString ju, versionsFromJson jv with
      | .ok n, .ok d, .ok u, .ok vs => .ok ⟨n, d, u, vs⟩
      | _, _, _, _ => .error .badSchema
    | _, _, _, _ => .error .badSchema
  | _ => .error .badSchema

/-- Deserialize a `SkillsIndex`: an object with a `skills` array. -/
def indexFromJson : Json → Except LoadErr SkillsIndex
  | .obj fields =>
    match jField fields "skills" with
    | some (.arr elems) =>
      match mapExcept entryFromJson elems with
      | .ok es => .ok ⟨es⟩
      | .error e => .error e
    | some _ => .error .badSchema
    | none => .error .badSchema
  | _ => .error .badSchema

/-- Parse a fetched index blob: `String::from_utf8` + `serde_json::from_str`
(src/index.rs:152-153). -/
def parseIndexBlob : Blob → Except LoadErr SkillsIndex
  | .bytes _ => .error .notJson
  | .json j => indexFromJson j

/-- The well-known index key (src/index.rs:9). -/
def INDEX_KEY : String := "skills_index.json"

/-- `load_index` (src/index.rs:149-157): fetch the index key; on any fetch
error return a fresh empty index; a fetched blob that fails to parse is an
error. -/
def load_index (ops : StoreOps σ) (s : σ) : Except LoadErr SkillsIndex × σ :=
  let g := ops.getObject s INDEX_KEY
  (match g.1 with
   | .ok data => parseIndexBlob data
   | .error _ => .ok SkillsIndex.new, g.2)

/-- `save_index` (src/index.rs:164-167): serialize and put under the
well-known key (serialization of this type never fails). -/
def save_index (ops : StoreOps σ) (s : σ) (idx : SkillsIndex) : Except StErr Unit × σ :=
  ops.putObject s INDEX_KEY (.json (indexToJson idx))

/-! ### Repository (src/repository.rs) -/

/-- Skill payload key `skills/<name>/<version>/<name>.skill`. -/
def skillKey (n v : String) : String :=
  "skills/" ++ n ++ "/" ++ v ++ "/" ++ n ++ ".skill"

/-- Changelog key `skills/<name>/<version>/CHANGELOG.md`. -/
def changelogKey (n v : String) : String :=
  "skills/" ++ n ++ "/" ++ v ++ "/CHANGELOG.md"

/-- Source-archive key `source/<name>/<version>/<name>-source.zip`. -/
def sourceKey (n v : String) : String :=
  "source/" ++ n ++ "/" ++ v ++ "/" ++ n ++ "-source.zip"

/-- Rust `Result::unwrap_or`. -/
def unwrapOr (r : Except ε α) (d : α) : α :=
  match r with
  | .ok a => a
  | .error _ => d

/-- Download failure cases of `Repository::download`: index load failure,
skill/version absent from the index (`NotFound` with context message), or a
failing read from the cache or the primary store. -/
inductive DlErr where
  | index (e : LoadErr)
  | skillNotFound
  | versionNotFound
  | cacheRead (e : StErr)
  | primaryRead (e : StErr)
deriving DecidableEq, Repr

/-- The primary-store half of `Repository::download`
(src/repository.rs:147-168): find the skill and the recorded object key in
the index, read the primary store, then best-effort write the bytes into the
cache under the deterministic key. -/
def downloadPrimary (pOps : StoreOps σ) (cOps : StoreOps κ) (p : σ) (cache : Option κ)
    (index : SkillsIndex) (name rv : String) : Except DlErr Blob × σ × Option κ :=
  match index.find_skill name with
  | none => (.error .skillNotFound, p, cache)
  | some entry =>
    match Versions.get entry.versions rv with
    | none => (.error .versionNotFound, p, cache)
    | some s3_path =>
      let g := pOps.getObject p s3_path
      match g.1 with
      | .error e => (.error (.primaryRead e), g.2, cache)
      | .ok data =>
        match cache with
        | some c => (.ok data, g.2, some (cOps.putObject c (skillKey name rv) data).2)
        | none => (.ok data, g.2, none)

/-- `Repository::download` (src/repository.rs:119-169).  The repository is
the primary backend state `p` plus the optional cache backend state
(`local_cache`); the returned blob stands for the bytes written to the
output path. -/
def Repository.download (pOps : StoreOps σ) (cOps : StoreOps κ) (p : σ) (cache : Option κ)
    (name : String) (version : Option String) : Except DlErr Blob × σ × Option κ :=
  let L := load_index pOps p
  match L.1 with
  | .error e => (.error (.index e), L.2, cache)
  | .ok index =>
    let rv? : Except DlErr String :=
      match version with
      | some v => .ok v
      | none =>
        match index.latest_version name with
        | some v => .ok v
        | none => .error .skillNotFound
    match rv? with
    | .error e => (.error e, L.2, cache)
    | .ok rv =>
      match cache with
      | some c =>
        let ex := cOps.objectExists c (skillKey name rv)
        if unwrapOr ex.1 false then
          let g := cOps.getObject ex.2 (skillKey name rv)
          match g.1 with
          | .ok data => (.ok data, L.2, some g.2)
          | .error e => (.error (.cacheRead e), L.2, some g.2)
        else
          downloadPrimary pOps cOps L.2 (some ex.2) index name rv
      | none => downloadPrimary pOps cOps L.2 none index name rv

/-- Failure cases of `Repository::delete`: only the index load and the final
index save can fail the operation. -/
inductive DelErr where
  | index (e : LoadErr)
  | save (e : StErr)
deriving DecidableEq, Repr

/-- The `delete_version_keys` closure (src/repository.rs:188-199): attempt
to delete the three object keys of one version, warning and ignoring each
failure. -/
def deleteVersionKeys (ops : StoreOps σ) (s : σ) (n v : String) : σ :=
  let s1 := (ops.deleteObject s (skillKey n v)).2
  let s2 := (ops.deleteObject s1 (changelogKey n v)).2
  (ops.deleteObject s2 (sourceKey n v)).2

/-- The all-versions loop of `Repository::delete` (src/repository.rs:206-211). -/
def deleteAllVersionKeys (ops : StoreOps σ) (s : σ) (n : String)
    (vers : List (String × String)) : σ :=
  vers.foldl (fun st p => deleteVersionKeys ops st n p.1) s

/-- `Repository::delete` (src/repository.rs:185-234): load the index, attempt
the object deletions for the targeted version(s) (failures ignored), update
the index, save it once, then best-effort clear the cache. -/
def Repository.delete (pOps : StoreOps σ) (cOps : StoreOps κ) (p : σ) (cache : Option κ)
    (name : String) (version : Option String) : Except DelErr Unit × σ × Option κ :=
  let L := load_index pOps p
  match L.1 with
  | .error e => (.error (.index e), L.2, cache)
  | .ok index =>
    let step : SkillsIndex × σ :=
      match version with
      | some ver => ((index.remove_version name ver).1, deleteVersionKeys pOps L.2 name ver)
      | none =>
        let p' :=
          match index.find_skill name with
          | some entry => deleteAllVersionKeys pOps L.2 name entry.versions
          | none => L.2
        ((index.remove_skill name).1, p')
    let sv := save_index pOps step.2 step.1
    match sv.1 with
    | .error e => (.error (.save e), sv.2, cache)
    | .ok _ =>
      let cache2 : Option κ :=
        match cache with
        | none => none
        | some c =>
          match version with
          | some ver => some ((cOps.deleteObject c (skillKey name ver)).2)
          | none =>
            let li := cOps.listObjects c ("skills/" ++ name ++ "/")
            match li.1 with
            | .ok keys => some (keys.foldl (fun st k => (cOps.deleteObject st k).2) li.2)
            | .error _ => some li.2
      (.ok (), sv.2, cache2)

/-! ### Install resolver (src/install_resolver.rs) -/

/-- The part of `RepositoryConfig` (src/config.rs:62-115) that
`resolve_and_install` consults: `has_local()` is `local.is_some()` and
`has_remote()` is `bucket_name.is_some()`. -/
structure RepositoryConfig where
  has_local : Bool
  has_remote : Bool
deriving DecidableEq, Repr

/-- `InstallSource` (src/install_resolver.rs:25-29). -/
inductive Source where
  | localSrc
  | remoteSrc
  | githubSrc
deriving DecidableEq, Repr

/-- Resolver errors: the configuration errors raised inside
`install_from_local` / `install_from_remote`, and any failure of an
underlying attempt (download/extract/network), abstracted by a code. -/
inductive ResolveErr where
  | noRepoForLocal
  | noRepoForRemote
  | noRemoteConfigured
  | attemptFailed (src : Source) (code : Nat)
deriving DecidableEq, Repr

/-- The source-selection flags of `InstallOptions`
(src/install_resolver.rs:13-21); the remaining fields (name, version,
directories) do not influence the cascade control flow and are absorbed
into the attempt outcomes. -/
structure InstallOptions where
  local_only : Bool
  remote_only : Bool
  github_only : Bool
deriving DecidableEq, Repr

/-- `install_from_local` (src/install_resolver.rs:98-119): error when no
repository is configured, otherwise the outcome `la` of downloading from the
local repository and installing, tagged `Local` on success. -/
def install_from_local (cfg : Option RepositoryConfig) (la : Except ResolveErr ρ) :
    Except ResolveErr (Source × ρ) :=
  match cfg with
  | none => .error .noRepoForLocal
  | some _ =>
    match la with
    | .ok r => .ok (.localSrc, r)
    | .error e => .error e

/-- `install_from_remote` (src/install_resolver.rs:121-153): error when no
repository is configured or no bucket is configured, otherwise the outcome
`ra` of the remote repository install, tagged `Remote` on success. -/
def install_from_remote (cfg : Option RepositoryConfig) (ra : Except ResolveErr ρ) :
    Except ResolveErr (Source × ρ) :=
  match cfg with
  | none => .error .noRepoForRemote
  | some rc =>
    if rc.has_remote then
      match ra with
      | .ok r => .ok (.remoteSrc, r)
      | .error e => .error e
    else .error .noRemoteConfigured

/-- `install_from_github` (src/install_resolver.rs:155-169): the outcome `ga`
of the GitHub-releases install, tagged `GitHub` on success. -/
def install_from_github (ga : Except ResolveErr ρ) : Except ResolveErr (Source × ρ) :=
  match ga with
  | .ok r => .ok (.githubSrc, r)
  | .error e => .error e

/-- `resolve_and_install` (src/install_resolver.rs:50-96), instrumented with
the ordered list of sources whose `install_from_*` attempt was entered.
`la`, `ra`, `ga` are the outcomes of the three underlying attempts for the
fixed options of this call. -/
def resolve_and_install (cfg : Option RepositoryConfig) (opts : InstallOptions)
    (la ra ga : Except ResolveErr ρ) : List Source × Except ResolveErr (Source × ρ) :=
  if opts.local_only then ([.localSrc], install_from_local cfg la)
  else if opts.remote_only then ([.remoteSrc], install_from_remote cfg ra)
  else if opts.github_only then ([.githubSrc], install_from_github ga)
  else
    match cfg with
    | some rc =>
      if rc.has_local then
        match install_from_local cfg la with
        | .ok r => ([.localSrc], .ok r)
        | .error _ =>
          if rc.has_remote then
            match install_from_remote cfg ra with
            | .ok r => ([.localSrc, .remoteSrc], .ok r)
            | .error _ => ([.localSrc, .remoteSrc, .githubSrc], install_from_github ga)
          else ([.localSrc, .githubSrc], install_from_github ga)
      else
        if rc.has_remote then
          match install_from_remote cfg ra with
          | .ok r => ([.remoteSrc], .ok r)
          | .error _ => ([.remoteSrc, .githubSrc], install_from_github ga)
        else ([.githubSrc], install_from_github ga)
    | none => ([.githubSrc], install_from_github ga)

/-! ### C2: semantic-version comparison and latest-version selection -/

/-- Lexicographic comparison of a numeric (major, minor, patch) triple. -/
def tupleCompare (x y : Nat × Nat × Nat) : Ordering :=
  match compare x.1 y.1 with
  | .eq =>
    match compare x.2.1 y.2.1 with
    | .eq => compare x.2.2 y.2.2
    | o => o
  | o => o

/-- The numeric triple `compare_semver` effectively compares: the first three
kept components, missing ones defaulting to 0. -/
def semverKey (s : String) : Nat × Nat × Nat :=
  ((semverComponents s).getD 0 0, (semverComponents s).getD 1 0, (semverComponents s).getD 2 0)

/-- The comparator as the claim words it — "a non-numeric component parses
as 0" — stated for refutation: every dot-separated component is kept, a
non-numeric one contributing 0 at its own position. -/
def compareSemverSpec (a b : String) : Ordering :=
  let comps := fun (s : String) =>
    (splitOnChar '.' (s.toList.dropWhile (· = 'v'))).map (fun p => (parseU64 p).getD 0)
  tupleCompare (((comps a).getD 0 0, (comps a).getD 1 0, (comps a).getD 2 0))
    (((comps b).getD 0 0, (comps b).getD 1 0, (comps b).getD 2 0))

/-- The index invariant of spec section 3: no entry with an empty version
map exists. -/
def Wf (idx : SkillsIndex) : Prop :=
  ∀ e ∈ idx.skills, e.versions ≠ []

/-- The `ObjectStore` contract of spec section 4.1 used for round-trips: a
successful `put` is observable by a `get` of the same key. -/
def StoreOps.GetAfterPut (ops : StoreOps σ) : Prop :=
  ∀ s k d, (ops.putObject s k d).1 = .ok () →
    (ops.getObject (ops.putObject s k d).2 k).1 = .ok d

theorem compare_semver_eq_tupleCompare (a b : String) :
    compare_semver a b = tupleCompare (semverKey a) (semverKey b) := by
  simp only [compare_semver, semverLoop, tupleCompare, semverKey]
  rcases compare ((semverComponents a).getD 0 0) ((semverComponents b).getD 0 0) <;>
    rcases compare ((semverComponents a).getD 1 0) ((semverComponents b).getD 1 0) <;>
      rcases compare ((semverComponents a).getD 2 0) ((semverComponents b).getD 2 0) <;> rfl

theorem tupleCompare_lt_iff (x y : Nat × Nat × Nat) :
    tupleCompare x y = .lt ↔
      (x.1 < y.1 ∨ (x.1 = y.1 ∧ (x.2.1 < y.2.1 ∨ (x.2.1 = y.2.1 ∧ x.2.2 < y.2.2)))) := by
  obtain ⟨a0, a1, a2⟩ := x
  obtain ⟨b0, b1, b2⟩ := y
  simp only [tupleCompare]
  rcases h0 : compare a0 b0 <;>
    [skip; rcases h1 : compare a1 b1 <;> [skip; skip; skip]; skip] <;>
    simp_all [Nat.compare_eq_lt, Nat.compare_eq_eq, Nat.compare_eq_gt] <;> omega

theorem tupleCompare_gt_iff (x y : Nat × Nat × Nat) :
    tupleCompare x y = .gt ↔ tupleCompare y x = .lt := by
  obtain ⟨a0, a1, a2⟩ := x
  obtain ⟨b0, b1, b2⟩ := y
  simp only [tupleCompare]
  rcases h0 : compare a0 b0 <;> rcases h0' : compare b0 a0 <;>
    rcases h1 : compare a1 b1 <;> rcases h1' : compare b1 a1 <;>
    simp_all [Nat.compare_eq_lt, Nat.compare_eq_eq, Nat.compare_eq_gt] <;> omega

theorem tupleCompare_self_not_lt (x : Nat × Nat × Nat) : tupleCompare x x ≠ .lt := by
  simp [tupleCompare_lt_iff]

theorem tupleCompare_trans_not_lt {u v w : Nat × Nat × Nat}
    (h1 : tupleCompare u v ≠ .lt) (h2 : tupleCompare v w ≠ .lt) :
    tupleCompare u w ≠ .lt := by
  simp only [Ne, tupleCompare_lt_iff] at *
  omega

theorem semverFold_mem (l : List String) (x : String) :
    (l.foldl (fun acc b => if compare_semver acc b = .gt then acc else b) x) = x ∨
      (l.foldl (fun acc b => if compare_semver acc b = .gt then acc else b) x) ∈ l := by
  induction l generalizing x with
  | nil => exact Or.inl rfl
  | cons y ys ih =>
    simp only [List.foldl_cons]
    by_cases hc : compare_semver x y = .gt
    · rw [if_pos hc]
      rcases ih x with h | h
      · exact Or.inl h
      · exact Or.inr (List.mem_cons_of_mem _ h)
    · rw [if_neg hc]
      rcases ih y with h | h
      · exact Or.inr (by rw [h]; exact List.mem_cons_self _ _)
      · exact Or.inr (List.mem_cons_of_mem _ h)

theorem semverFold_ge (l : List String) (x : String) :
    ∀ w, (w = x ∨ w ∈ l) →
      tupleCompare
        (semverKey (l.foldl (fun acc b => if compare_semver acc b = .gt then acc else b) x))
        (semverKey w) ≠ .lt := by
  induction l generalizing x with
  | nil =>
    intro w hw
    rcases hw with rfl | h
    · exact tupleCompare_self_not_lt _
    · cases h
  | cons y ys ih =>
    intro w hw
    simp only [List.foldl_cons]
    by_cases hc : compare_semver x y = .gt
    · rw [if_pos hc]
      have hxy : tupleCompare (semverKey x) (semverKey y) = .gt := by
        rw [← compare_semver_eq_tupleCompare]; exact hc
      rcases hw with rfl | h
      · exact ih _ _ (Or.inl rfl)
      · rcases List.mem_cons.mp h with rfl | h'
        · exact tupleCompare_trans_not_lt (ih x x (Or.inl rfl)) (by simp [hxy])
        · exact ih _ _ (Or.inr h')
    · rw [if_neg hc]
      have hxy : tupleCompare (semverKey y) (semverKey x) ≠ .lt := fun hlt =>
        hc (by rw [compare_semver_eq_tupleCompare]; exact (tupleCompare_gt_iff _ _).mpr hlt)
      rcases hw with rfl | h
      · exact tupleCompare_trans_not_lt (ih y y (Or.inl rfl)) hxy
      · rcases List.mem_cons.mp h with rfl | h'
        · exact ih _ _ (Or.inl rfl)
        · exact ih _ _ (Or.inr h')

theorem latest_version_is_max (idx : SkillsIndex) (name v : String) (e : IndexEntry)
    (hf : idx.find_skill name = some e) (hl : idx.latest_version name = some v) :
    v ∈ e.versions.map (·.1) ∧ ∀ w ∈ e.versions.map (·.1), compare_semver v w ≠ .lt := by
  rw [SkillsIndex.latest_version, hf, Option.some_bind] at hl
  rcases hk : e.versions.map (·.1) with _ | ⟨k, ks⟩
  · rw [hk] at hl
    cases hl
  · rw [hk] at hl ⊢
    simp only [maxByLast, Option.some_inj] at hl
    subst hl
    constructor
    · rcases semverFold_mem ks k with h | h
      · rw [h]; exact List.mem_cons_self _ _
      · exact List.mem_cons_of_mem _ h
    · intro w hw
      rw [compare_semver_eq_tupleCompare]
      exact semverFold_ge ks k w (by
        rcases List.mem_cons.mp hw with rfl | h'
        · exact Or.inl rfl
        · exact Or.inr h')

/-- C2 counterexample: `compare_semver` does not parse a non-numeric
component as 0 — `filter_map` drops it, shifting later components left.  On
`"1.x.3"` vs `"1.1.0"` the code compares (1,3,0) against (1,1,0) and answers
`gt`, while the claim's numeric-tuple reading (1,0,3) vs (1,1,0) answers
`lt`; `latest_version` accordingly selects `"1.x.3"` over `"1.1.0"`. -/
theorem C2_counterexample :
    compare_semver "1.x.3" "1.1.0" = .gt ∧
    compareSemverSpec "1.x.3" "1.1.0" = .lt ∧
    (SkillsIndex.mk [⟨"s", "d", "u", [("1.1.0", "p1"), ("1.x.3", "p2")]⟩]).latest_version "s"
      = some "1.x.3" := by
  refine ⟨by decide, by decide, by decide⟩

/-- C2 (amended): `compare_semver` compares the numeric triple obtained by
stripping leading `v`s, splitting on dots, dropping the components that do
not parse as `u64` (later components shift into their place), taking the
first three with missing components defaulting to 0 — a purely numeric
lexicographic tuple order with no lexical fallback; `latest_version` returns
`none` when the skill is absent, and any version it returns belongs to the
entry and is maximal under this order. -/
theorem C2_semver_numeric_tuple :
    (∀ a b, compare_semver a b = tupleCompare (semverKey a) (semverKey b)) ∧
    (∀ (idx : SkillsIndex) (name : String),
      idx.find_skill name = none → idx.latest_version name = none) ∧
    (∀ (idx : SkillsIndex) (name v : String) (e : IndexEntry),
      idx.find_skill name = some e → idx.latest_version name = some v →
      v ∈ e.versions.map (·.1) ∧ ∀ w ∈ e.versions.map (·.1), compare_semver v w ≠ .lt) := by
  refine ⟨compare_semver_eq_tupleCompare, ?_, latest_version_is_max⟩
  intro idx name h
  simp [SkillsIndex.latest_version, h]

/-- Witness for C2: the amended claim applied at a concrete index holding
versions 1.0.0, 2.1.0, 1.5.0 of skill `a`, and at an absent skill. -/
theorem C2_semver_numeric_tuple_witness :
    ((SkillsIndex.mk [⟨"a", "d", "u", [("1.0.0", "p"), ("2.1.0", "p"), ("1.5.0", "p")]⟩]).find_skill
        "a" = some ⟨"a", "d", "u", [("1.0.0", "p"), ("2.1.0", "p"), ("1.5.0", "p")]⟩) ∧
    ((SkillsIndex.mk [⟨"a", "d", "u", [("1.0.0", "p"), ("2.1.0", "p"), ("1.5.0", "p")]⟩]).latest_version
        "a" = some "2.1.0") ∧
    ("2.1.0" ∈ [("1.0.0", "p"), ("2.1.0", "p"), ("1.5.0", "p")].map (·.1) ∧
      ∀ w ∈ [("1.0.0", "p"), ("2.1.0", "p"), ("1.5.0", "p")].map (·.1),
        compare_semver "2.1.0" w ≠ .lt) ∧
    (SkillsIndex.new.find_skill "zzz" = none ∧ SkillsIndex.new.latest_version "zzz" = none) :=
  ⟨by decide, by decide,
   C2_semver_numeric_tuple.2.2
     (SkillsIndex.mk [⟨"a", "d", "u", [("1.0.0", "p"), ("2.1.0", "p"), ("1.5.0", "p")]⟩])
     "a" "2.1.0" ⟨"a", "d", "u", [("1.0.0", "p"), ("2.1.0", "p"), ("1.5.0", "p")]⟩
     (by decide) (by decide),
   by decide, C2_semver_numeric_tuple.2.1 SkillsIndex.new "zzz" (by decide)⟩

/-! ### C6: the index never holds an entry with an empty version map -/

theorem mem_updateFirstEntry {l : List IndexEntry} {n : String} {f : IndexEntry → IndexEntry}
    {e' : IndexEntry} (h : e' ∈ updateFirstEntry l n f) :
    e' ∈ l ∨ ∃ e, l.find? (fun s => s.name == n) = some e ∧ e' = f e := by
  induction l with
  | nil => cases h
  | cons e es ih =>
    simp only [updateFirstEntry] at h
    by_cases hc : (e.name == n) = true
    · rw [if_pos hc] at h
      rcases List.mem_cons.mp h with rfl | h'
      · exact Or.inr ⟨e, List.find?_cons_of_pos _ hc, rfl⟩
      · exact Or.inl (List.mem_cons_of_mem _ h')
    · rw [if_neg hc] at h
      rcases List.mem_cons.mp h with rfl | h'
      · exact Or.inl (List.mem_cons_self _ _)
      · rcases ih h' with h'' | ⟨a, ha, rfl⟩
        · exact Or.inl (List.mem_cons_of_mem _ h'')
        · refine Or.inr ⟨a, ?_, rfl⟩
          rw [show List.find? (fun s => s.name == n) (e :: es)
              = List.find? (fun s => s.name == n) es from
            List.find?_cons_of_neg _ (by simpa using hc)]
          exact ha

theorem Versions.insert_ne_nil (m : List (String × String)) (k v : String) :
    Versions.insert m k v ≠ [] := by
  unfold Versions.insert
  split
  · rcases m with _ | ⟨p, ps⟩
    · simp_all
    · simp
  · simp

theorem wf_add_or_update (idx : SkillsIndex) (n d u v p : String) (h : Wf idx) :
    Wf (idx.add_or_update_skill n d u v p).1 := by
  unfold SkillsIndex.add_or_update_skill
  split
  · intro e' he'
    rcases mem_updateFirstEntry he' with h' | ⟨e, _, rfl⟩
    · exact h e' h'
    · exact Versions.insert_ne_nil _ _ _
  · intro e' he'
    rcases List.mem_append.mp he' with h' | h'
    · exact h e' h'
    · rcases List.mem_cons.mp h' with rfl | h''
      · simp
      · cases h''

theorem wf_remove_skill (idx : SkillsIndex) (n : String) (h : Wf idx) :
    Wf (idx.remove_skill n).1 := by
  intro e' he'
  exact h e' (List.mem_filter.mp he').1

theorem wf_remove_version (idx : SkillsIndex) (n v : String) (h : Wf idx) :
    Wf (idx.remove_version n v).1 := by
  unfold SkillsIndex.remove_version
  cases hf : idx.find_skill n with
  | none => exact h
  | some entry =>
    simp only
    split
    · intro e' he'
      have he'' := List.mem_filter.mp he'
      rcases mem_updateFirstEntry he''.1 with h' | ⟨e, hfind, rfl⟩
      · exact h e' h'
      · exfalso
        have h2 := List.find?_some hfind
        simp_all
    · intro e' he'
      rcases mem_updateFirstEntry he' with h' | ⟨e, hfind, rfl⟩
      · exact h e' h'
      · have he : e = entry := by
          rw [SkillsIndex.find_skill] at hf
          rw [hfind] at hf
          exact Option.some_inj.mp hf
        subst he
        simp only
        intro hnil
        simp_all [List.isEmpty_iff]

theorem remove_version_last_cascades (idx : SkillsIndex) (n v : String) (e : IndexEntry)
    (hf : idx.find_skill n = some e) (hv : e.versions.map (·.1) = [v]) :
    ((idx.remove_version n v).1).find_skill n = none := by
  unfold SkillsIndex.remove_version
  rw [hf]
  simp only
  have hsing : ∃ x, e.versions = [(v, x)] := by
    rcases hm : e.versions with _ | ⟨⟨k, val⟩, rest⟩
    · rw [hm] at hv; cases hv
    · rw [hm] at hv
      simp only [List.map_cons, List.cons.injEq] at hv
      obtain ⟨rfl, hrest⟩ := hv
      have : rest = [] := by
        cases rest with
        | nil => rfl
        | cons a as => cases hrest
      subst this
      exact ⟨val, rfl⟩
  obtain ⟨x, hx⟩ := hsing
  rw [hx]
  have hempty : (Versions.remove [(v, x)] v).isEmpty = true := by
    simp [Versions.remove]
  rw [if_pos hempty]
  rw [SkillsIndex.find_skill]
  apply List.find?_eq_none.mpr
  intro a ha
  have := (List.mem_filter.mp ha).2
  simp_all

/-- C6: the index invariant — no entry with an empty version map.
`SkillsIndex::new` satisfies it, `add_or_update_skill`, `remove_skill` and
`remove_version` preserve it, and `remove_version` of an entry's only
version removes the entry itself, so `find_skill` afterwards returns
`none`. -/
theorem C6_no_empty_version_entry :
    Wf SkillsIndex.new ∧
    (∀ idx n d u v p, Wf idx → Wf (SkillsIndex.add_or_update_skill idx n d u v p).1) ∧
    (∀ idx n, Wf idx → Wf (SkillsIndex.remove_skill idx n).1) ∧
    (∀ idx n v, Wf idx → Wf (SkillsIndex.remove_version idx n v).1) ∧
    (∀ idx n v e, SkillsIndex.find_skill idx n = some e → e.versions.map (·.1) = [v] →
      ((SkillsIndex.remove_version idx n v).1).find_skill n = none) :=
  ⟨fun _ h => absurd h (List.not_mem_nil _), wf_add_or_update, wf_remove_skill,
   wf_remove_version, remove_version_last_cascades⟩

/-- Witness for C6: the invariant checked through a concrete sequence of
operations, and the cascading deletion observed on a one-version entry. -/
theorem C6_no_empty_version_entry_witness :
    Wf (SkillsIndex.mk [⟨"a", "d", "u", [("1.0.0", "p")]⟩]) ∧
    Wf ((SkillsIndex.mk [⟨"a", "d", "u", [("1.0.0", "p")]⟩]).add_or_update_skill
      "a" "d2" "u2" "2.0.0" "q").1 ∧
    Wf ((SkillsIndex.mk [⟨"a", "d", "u", [("1.0.0", "p")]⟩]).remove_skill "a").1 ∧
    Wf ((SkillsIndex.mk [⟨"a", "d", "u", [("1.0.0", "p")]⟩]).remove_version "a" "1.0.0").1 ∧
    ((SkillsIndex.mk [⟨"a", "d", "u", [("1.0.0", "p")]⟩]).remove_version "a" "1.0.0").1.find_skill
      "a" = none :=
  ⟨by unfold Wf; decide,
   C6_no_empty_version_entry.2.1 _ "a" "d2" "u2" "2.0.0" "q" (by unfold Wf; decide),
   C6_no_empty_version_entry.2.2.1 _ "a" (by unfold Wf; decide),
   C6_no_empty_version_entry.2.2.2.1 _ "a" "1.0.0" (by unfold Wf; decide),
   C6_no_empty_version_entry.2.2.2.2 _ "a" "1.0.0" ⟨"a", "d", "u", [("1.0.0", "p")]⟩
     (by decide) (by decide)⟩

/-! ### C3: load_index error handling -/

theorem load_index_get_error (ops : StoreOps σ) (s : σ) (e : StErr)
    (h : (ops.getObject s INDEX_KEY).1 = .error e) :
    (load_index ops s).1 = .ok SkillsIndex.new := by
  simp [load_index, h]

theorem load_index_get_ok (ops : StoreOps σ) (s : σ) (b : Blob)
    (h : (ops.getObject s INDEX_KEY).1 = .ok b) :
    (load_index ops s).1 = parseIndexBlob b := by
  simp [load_index, h]

/-- C3 counterexample: `load_index` treats every fetch failure as an empty
index, not only a missing key.  On a backend whose reads fail with a
transport error while the index object is present (a reachable state of the
remote backend), `load_index` silently returns the empty index instead of
surfacing the failure — refuting "empty exactly when the index key is
missing". -/
theorem C3_counterexample :
    ((transientFailOps.getObject
        [(INDEX_KEY, Blob.json (indexToJson (SkillsIndex.mk [⟨"a", "d", "u", [("1.0.0", "p")]⟩])))]
        INDEX_KEY).1 = .error .transport) ∧
    (([(INDEX_KEY, Blob.json (indexToJson (SkillsIndex.mk [⟨"a", "d", "u", [("1.0.0", "p")]⟩])))] :
        MapStore).any (fun p => p.1 == INDEX_KEY) = true) ∧
    ((load_index transientFailOps
        [(INDEX_KEY, Blob.json (indexToJson (SkillsIndex.mk [⟨"a", "d", "u", [("1.0.0", "p")]⟩])))]).1
      = .ok SkillsIndex.new) :=
  ⟨rfl, by decide, rfl⟩

/-- C3 (amended): `load_index` returns the empty index — never an error —
whenever the fetch of the well-known index key fails, the missing-key case
in particular but equally any other fetch error; a blob that is fetched
successfully but is malformed is fatal and surfaced as an error, never
treated as an empty index (and every non-JSON byte blob is malformed). -/
theorem C3_load_failure_semantics (ops : StoreOps σ) (s : σ) :
    (∀ e, (ops.getObject s INDEX_KEY).1 = .error e →
      (load_index ops s).1 = .ok SkillsIndex.new) ∧
    (∀ b e', (ops.getObject s INDEX_KEY).1 = .ok b → parseIndexBlob b = .error e' →
      (load_index ops s).1 = .error e') ∧
    (∀ bs, parseIndexBlob (Blob.bytes bs) = .error .notJson) :=
  ⟨fun e h => load_index_get_error ops s e h,
   fun b e' hb he => by rw [load_index_get_ok ops s b hb, he],
   fun _ => rfl⟩

/-- Witness for C3: a missing index key loads as the empty index; a present
but malformed blob fails the load. -/
theorem C3_load_failure_semantics_witness :
    ((mapOps.getObject ([] : MapStore) INDEX_KEY).1 = .error .notFound) ∧
    ((load_index mapOps ([] : MapStore)).1 = .ok SkillsIndex.new) ∧
    ((mapOps.getObject [(INDEX_KEY, Blob.bytes [0])] INDEX_KEY).1 = .ok (Blob.bytes [0])) ∧
    (parseIndexBlob (Blob.bytes [0]) = .error .notJson) ∧
    ((load_index mapOps [(INDEX_KEY, Blob.bytes [0])]).1 = .error .notJson) :=
  ⟨rfl,
   (C3_load_failure_semantics mapOps ([] : MapStore)).1 .notFound rfl,
   rfl, rfl,
   (C3_load_failure_semantics mapOps [(INDEX_KEY, Blob.bytes [0])]).2.1
     (Blob.bytes [0]) .notJson rfl rfl⟩

/-! ### C8: save/load round-trip -/

theorem mapExcept_versions (ps : List (String × String)) :
    mapExcept (fun q => (jString q.2).map (fun v => (q.1, v)))
      (ps.map (fun p => (p.1, Json.str p.2))) = .ok ps := by
  induction ps with
  | nil => rfl
  | cons p ps ih =>
    simp only [List.map_cons, mapExcept, jString, Except.map] at ih ⊢
    rw [ih]

theorem versions_roundtrip (m : List (String × String)) :
    versionsFromJson (versionsToJson m) = .ok m := by
  simp [versionsToJson, versionsFromJson, mapExcept_versions]

theorem entry_roundtrip (e : IndexEntry) : entryFromJson (entryToJson e) = .ok e := by
  simp [entryToJson, entryFromJson, jField, List.find?, jString, versions_roundtrip]

theorem mapExcept_entries (l : List IndexEntry) :
    mapExcept entryFromJson (l.map entryToJson) = .ok l := by
  induction l with
  | nil => rfl
  | cons e es ih => simp [mapExcept, entry_roundtrip, ih]

theorem index_roundtrip (idx : SkillsIndex) : indexFromJson (indexToJson idx) = .ok idx := by
  simp [indexToJson, indexFromJson, jField, List.find?, mapExcept_entries]

theorem MapStore.lookup_cons (x : String × Blob) (l : List (String × Blob)) (k : String) :
    MapStore.lookup (x :: l) k =
      if x.1 == k then some x.2 else MapStore.lookup l k := by
  by_cases h : (x.1 == k) = true <;> simp [MapStore.lookup, List.find?_cons, h]

theorem MapStore.lookup_map_replace (s : List (String × Blob)) (k : String) (d : Blob)
    (h : s.any (fun p => p.1 == k) = true) :
    MapStore.lookup (s.map (fun p => if p.1 == k then (k, d) else p)) k = some d := by
  induction s with
  | nil => cases h
  | cons p ps ih =>
    simp only [List.map_cons]
    by_cases hp : (p.1 == k) = true
    · rw [if_pos hp, MapStore.lookup_cons]
      simp
    · rw [if_neg hp, MapStore.lookup_cons]
      have hp' : (p.1 == k) = false := by simpa using hp
      have h' : ps.any (fun q => q.1 == k) = true := by
        simp only [List.any_cons, hp', Bool.false_or] at h
        exact h
      simp only [hp', if_false]
      exact ih h'

theorem MapStore.lookup_append_absent (s : List (String × Blob)) (k : String) (d : Blob)
    (h : s.any (fun p => p.1 == k) = false) :
    MapStore.lookup (s ++ [(k, d)]) k = some d := by
  induction s with
  | nil => simp [MapStore.lookup]
  | cons p ps ih =>
    simp only [List.any_cons, Bool.or_eq_false_iff] at h
    rw [List.cons_append, MapStore.lookup_cons]
    simp only [h.1, if_false]
    exact ih h.2

theorem MapStore.lookup_insert (s : MapStore) (k : String) (d : Blob) :
    MapStore.lookup (MapStore.insert s k d) k = some d := by
  unfold MapStore.insert
  split
  case isTrue h => exact MapStore.lookup_map_replace s k d h
  case isFalse h =>
    exact MapStore.lookup_append_absent s k d (by simp only [Bool.not_eq_true] at h; exact h)

theorem mapOps_get_after_put : mapOps.GetAfterPut := by
  intro s k d _
  show (mapOps.getObject (MapStore.insert s k d) k).1 = .ok d
  simp [mapOps, MapStore.lookup_insert]

/-- C8: for every index value and every backend honouring the object-store
contract (a successful put is observable by a get of the same key),
`save_index` followed by `load_index` on the resulting store yields an index
equal to the one saved. -/
theorem C8_save_load_roundtrip (ops : StoreOps σ) (s : σ) (idx : SkillsIndex)
    (hlaw : ops.GetAfterPut) (hsave : (save_index ops s idx).1 = .ok ()) :
    (load_index ops (save_index ops s idx).2).1 = .ok idx := by
  have hget := hlaw s INDEX_KEY (Blob.json (indexToJson idx)) hsave
  have hld := load_index_get_ok ops (save_index ops s idx).2 (Blob.json (indexToJson idx)) hget
  rw [hld]
  show indexFromJson (indexToJson idx) = .ok idx
  exact index_roundtrip idx

/-- Witness for C8: the round-trip observed on the in-memory mock backend
with a concrete two-version index. -/
theorem C8_save_load_roundtrip_witness :
    ((save_index mapOps ([] : MapStore)
        (SkillsIndex.mk [⟨"a", "d", "u", [("1.0.0", "p"), ("2.0.0", "q")]⟩])).1 = .ok ()) ∧
    ((load_index mapOps (save_index mapOps ([] : MapStore)
        (SkillsIndex.mk [⟨"a", "d", "u", [("1.0.0", "p"), ("2.0.0", "q")]⟩])).2).1
      = .ok (SkillsIndex.mk [⟨"a", "d", "u", [("1.0.0", "p"), ("2.0.0", "q")]⟩])) :=
  ⟨rfl,
   C8_save_load_roundtrip mapOps ([] : MapStore)
     (SkillsIndex.mk [⟨"a", "d", "u", [("1.0.0", "p"), ("2.0.0", "q")]⟩])
     mapOps_get_after_put rfl⟩

/-! ### C1: download and NotFound for index-absent skills/versions -/

theorem downloadPrimary_notFound (pOps : StoreOps σ) (cOps : StoreOps κ) (p : σ)
    (cache : Option κ) (idx : SkillsIndex) (name rv : String) :
    (idx.find_skill name = none →
      (downloadPrimary pOps cOps p cache idx name rv).1 = .error .skillNotFound) ∧
    (∀ e, idx.find_skill name = some e → Versions.get e.versions rv = none →
      (downloadPrimary pOps cOps p cache idx name rv).1 = .error .versionNotFound) := by
  constructor
  · intro h
    simp [downloadPrimary, h]
  · intro e he hv
    simp [downloadPrimary, he, hv]

/-- C1 counterexample: with a cache layer holding the object for an explicit
(name, version), `Repository::download` consults the cache before the index
and succeeds, even though the skill is absent from the loaded index (here
the primary store is empty, so the loaded index is empty). -/
theorem C1_counterexample :
    ((load_index mapOps ([] : MapStore)).1 = .ok SkillsIndex.new) ∧
    (SkillsIndex.new.find_skill "s" = none) ∧
    ((Repository.download mapOps mapOps ([] : MapStore)
        (some [("skills/s/1.0.0/s.skill", Blob.bytes [7])]) "s" (some "1.0.0")).1
      = .ok (Blob.bytes [7])) :=
  ⟨rfl, by decide, rfl⟩

/-- C1 (amended): `Repository::download` fails with the NotFound context
errors whenever the requested skill (or requested version) is absent from
the loaded index, regardless of the primary store's contents — provided
either no cache layer is configured or the cache's existence check misses
for the deterministic (name, version) key; with no explicit version and the
skill absent, it fails this way unconditionally (the cache is never
consulted). -/
theorem C1_download_notfound (pOps : StoreOps σ) (cOps : StoreOps κ) (p : σ)
    (cache : Option κ) (name : String) (idx : SkillsIndex)
    (hload : (load_index pOps p).1 = .ok idx) :
    (idx.find_skill name = none →
      (Repository.download pOps cOps p cache name none).1 = .error .skillNotFound) ∧
    (∀ v, (∀ c, cache = some c →
        unwrapOr (cOps.objectExists c (skillKey name v)).1 false = false) →
      (idx.find_skill name = none →
        (Repository.download pOps cOps p cache name (some v)).1 = .error .skillNotFound) ∧
      (∀ e, idx.find_skill name = some e → Versions.get e.versions v = none →
        (Repository.download pOps cOps p cache name (some v)).1 = .error .versionNotFound)) := by
  constructor
  · intro hf
    have hlat : idx.latest_version name = none := by
      simp [SkillsIndex.latest_version, hf]
    simp only [Repository.download, hload, hlat]
  · intro v hmiss
    constructor
    · intro hf
      simp only [Repository.download, hload]
      cases cache with
      | none =>
        exact (downloadPrimary_notFound pOps cOps _ none idx name v).1 hf
      | some c =>
        have hm := hmiss c rfl
        simp only [hm, Bool.false_eq_true, if_false]
        exact (downloadPrimary_notFound pOps cOps _ _ idx name v).1 hf
    · intro e he hv
      simp only [Repository.download, hload]
      cases cache with
      | none =>
        exact (downloadPrimary_notFound pOps cOps _ none idx name v).2 e he hv
      | some c =>
        have hm := hmiss c rfl
        simp only [hm, Bool.false_eq_true, if_false]
        exact (downloadPrimary_notFound pOps cOps _ _ idx name v).2 e he hv

/-- Witness for C1: a cache-free repository whose index holds skill `a` at
version 1.0.0 only — requesting absent skill `b`, and absent version 9.9.9
of `a`, both fail with the NotFound errors. -/
theorem C1_download_notfound_witness :
    ((load_index mapOps
        [(INDEX_KEY, Blob.json (indexToJson
          (SkillsIndex.mk [⟨"a", "d", "u", [("1.0.0", "skills/a/1.0.0/a.skill")]⟩])))]).1
      = .ok (SkillsIndex.mk [⟨"a", "d", "u", [("1.0.0", "skills/a/1.0.0/a.skill")]⟩])) ∧
    ((Repository.download mapOps mapOps
        [(INDEX_KEY, Blob.json (indexToJson
          (SkillsIndex.mk [⟨"a", "d", "u", [("1.0.0", "skills/a/1.0.0/a.skill")]⟩])))]
        (none : Option MapStore) "b" none).1 = .error .skillNotFound) ∧
    ((Repository.download mapOps mapOps
        [(INDEX_KEY, Blob.json (indexToJson
          (SkillsIndex.mk [⟨"a", "d", "u", [("1.0.0", "skills/a/1.0.0/a.skill")]⟩])))]
        (none : Option MapStore) "a" (some "9.9.9")).1 = .error .versionNotFound) := by
  refine ⟨rfl, ?_, ?_⟩
  · exact (C1_download_notfound mapOps mapOps
      [(INDEX_KEY, Blob.json (indexToJson
        (SkillsIndex.mk [⟨"a", "d", "u", [("1.0.0", "skills/a/1.0.0/a.skill")]⟩])))]
      none "b" (SkillsIndex.mk [⟨"a", "d", "u", [("1.0.0", "skills/a/1.0.0/a.skill")]⟩])
      rfl).1 (by decide)
  · exact ((C1_download_notfound mapOps mapOps
      [(INDEX_KEY, Blob.json (indexToJson
        (SkillsIndex.mk [⟨"a", "d", "u", [("1.0.0", "skills/a/1.0.0/a.skill")]⟩])))]
      none "a" (SkillsIndex.mk [⟨"a", "d", "u", [("1.0.0", "skills/a/1.0.0/a.skill")]⟩])
      rfl).2 "9.9.9"
      (fun c h => by cases h)).2 ⟨"a", "d", "u", [("1.0.0", "skills/a/1.0.0/a.skill")]⟩
      (by decide) (by decide)

/-! ### C5: cache coherence of repeated downloads -/

theorem MapStore.any_of_lookup {l : MapStore} {k : String} {d : Blob}
    (h : MapStore.lookup l k = some d) : l.any (fun p => p.1 == k) = true := by
  unfold MapStore.lookup at h
  cases hf : l.find? (fun p => p.1 == k) with
  | none => rw [hf] at h; cases h
  | some x =>
    have hm := List.mem_of_find?_eq_some hf
    have hp := List.find?_some hf
    exact List.any_eq_true.mpr ⟨x, hm, hp⟩

theorem downloadPrimary_cache_state (pOps : StoreOps σ) (p : σ) (c : MapStore)
    (idx : SkillsIndex) (name rv : String) (data : Blob)
    (h : (downloadPrimary pOps mapOps p (some c) idx name rv).1 = .ok data) :
    ∃ c1, (downloadPrimary pOps mapOps p (some c) idx name rv).2.2 = some c1 ∧
      MapStore.lookup c1 (skillKey name rv) = some data := by
  unfold downloadPrimary at h ⊢
  cases hf : idx.find_skill name with
  | none => simp [hf] at h
  | some e =>
    simp only [hf] at h ⊢
    cases hv : Versions.get e.versions rv with
    | none => simp [hv] at h
    | some path =>
      simp only [hv] at h ⊢
      cases hg : (pOps.getObject p path).1 with
      | error e' => simp [hg] at h
      | ok d =>
        simp only [hg] at h ⊢
        have hd : d = data := by simpa using h
        subst hd
        exact ⟨MapStore.insert c (skillKey name rv) d, rfl, MapStore.lookup_insert c _ d⟩

theorem download_cache_state (pOps : StoreOps σ) (p : σ) (c : MapStore)
    (name v : String) (data : Blob)
    (h1 : (Repository.download pOps mapOps p (some c) name (some v)).1 = .ok data) :
    ∃ c1, (Repository.download pOps mapOps p (some c) name (some v)).2.2 = some c1 ∧
      MapStore.lookup c1 (skillKey name v) = some data := by
  simp only [Repository.download] at h1 ⊢
  cases hL : (load_index pOps p).1 with
  | error e => simp [hL] at h1
  | ok index =>
    simp only [hL] at h1 ⊢
    by_cases hany : c.any (fun q => q.1 == skillKey name v) = true
    · simp only [show unwrapOr (mapOps.objectExists c (skillKey name v)).1 false
          = c.any (fun q => q.1 == skillKey name v) from rfl, hany, if_true] at h1 ⊢
      rw [show (mapOps.objectExists c (skillKey name v)).2 = c from rfl] at h1 ⊢
      cases hlk : MapStore.lookup c (skillKey name v) with
      | none =>
        have hg : (mapOps.getObject c (skillKey name v)).1 = .error .notFound := by
          show (match MapStore.lookup c (skillKey name v) with
            | some d => Except.ok d
            | none => Except.error StErr.notFound) = .error .notFound
          rw [hlk]
        simp [hg] at h1
      | some d0 =>
        have hget : (mapOps.getObject c (skillKey name v)).1 = .ok d0 := by
          show (match MapStore.lookup c (skillKey name v) with
            | some d => Except.ok d
            | none => Except.error StErr.notFound) = .ok d0
          rw [hlk]
        simp only [hget] at h1 ⊢
        have hd : d0 = data := by simpa using h1
        subst hd
        exact ⟨c, rfl, hlk⟩
    · have hany2 : c.any (fun q => q.1 == skillKey name v) = false := by
        simp only [Bool.not_eq_true] at hany
        exact hany
      have hany' : unwrapOr (mapOps.objectExists c (skillKey name v)).1 false = false := hany2
      simp only [hany', Bool.false_eq_true, if_false] at h1 ⊢
      exact downloadPrimary_cache_state pOps (load_index pOps p).2 c index name v data h1

theorem download_dead_primary_cache_hit (c1 : MapStore) (name v : String) (data : Blob)
    (h : MapStore.lookup c1 (skillKey name v) = some data) :
    (Repository.download deadOps mapOps () (some c1) name (some v)).1 = .ok data := by
  have hany := MapStore.any_of_lookup h
  have hload : (load_index deadOps ()).1 = .ok SkillsIndex.new :=
    load_index_get_error deadOps () .transport rfl
  simp only [Repository.download, hload]
  simp only [show unwrapOr (mapOps.objectExists c1 (skillKey name v)).1 false
      = c1.any (fun q => q.1 == skillKey name v) from rfl, hany, if_true]
  rw [show (mapOps.objectExists c1 (skillKey name v)).2 = c1 from rfl]
  have hget : (mapOps.getObject c1 (skillKey name v)).1 = .ok data := by
    show (match MapStore.lookup c1 (skillKey name v) with
      | some d => Except.ok d
      | none => Except.error StErr.notFound) = .ok data
    rw [h]
  simp only [hget]

/-- C5 counterexample: the second `download(name, v)` does touch the primary
store — it issues the index read `get_object("skills_index.json")` against
it before consulting the cache.  Concretely: after a first successful
download populates the cache, rerunning the download with the primary
backend instrumented records exactly that one primary-store operation. -/
theorem C5_counterexample :
    ((Repository.download mapOps mapOps
        [(INDEX_KEY, Blob.json (indexToJson
            (SkillsIndex.mk [⟨"s", "d", "u", [("1.0.0", "skills/s/1.0.0/s.skill")]⟩]))),
         ("skills/s/1.0.0/s.skill", Blob.bytes [9])]
        (some ([] : MapStore)) "s" (some "1.0.0")).1 = .ok (Blob.bytes [9])) ∧
    ((Repository.download mapOps mapOps
        [(INDEX_KEY, Blob.json (indexToJson
            (SkillsIndex.mk [⟨"s", "d", "u", [("1.0.0", "skills/s/1.0.0/s.skill")]⟩]))),
         ("skills/s/1.0.0/s.skill", Blob.bytes [9])]
        (some ([] : MapStore)) "s" (some "1.0.0")).2.2
      = some [("skills/s/1.0.0/s.skill", Blob.bytes [9])]) ∧
    ((Repository.download mapOps.traced mapOps
        ([(INDEX_KEY, Blob.json (indexToJson
            (SkillsIndex.mk [⟨"s", "d", "u", [("1.0.0", "skills/s/1.0.0/s.skill")]⟩]))),
          ("skills/s/1.0.0/s.skill", Blob.bytes [9])], ([] : List StoreOp))
        (some [("skills/s/1.0.0/s.skill", Blob.bytes [9])]) "s" (some "1.0.0")).2.1.2
      = [StoreOp.getOp INDEX_KEY]) ∧
    ([StoreOp.getOp INDEX_KEY] ≠ ([] : List StoreOp)) :=
  ⟨rfl, rfl, rfl, by simp⟩

/-- C5 (amended): after one successful `download(name, v)` with an explicit
version through a cache-enabled repository, a second `download(name, v)`
returns the same cached bytes and succeeds even if every primary-store
operation fails from then on (its only primary-store access is the index
read, whose failure `load_index` tolerates). -/
theorem C5_second_download_survives_dead_primary (pOps : StoreOps σ) (p : σ) (c : MapStore)
    (name v : String) (data : Blob)
    (h1 : (Repository.download pOps mapOps p (some c) name (some v)).1 = .ok data) :
    ∃ c1, (Repository.download pOps mapOps p (some c) name (some v)).2.2 = some c1 ∧
      (Repository.download deadOps mapOps () (some c1) name (some v)).1 = .ok data := by
  obtain ⟨c1, hc1, hlk⟩ := download_cache_state pOps p c name v data h1
  exact ⟨c1, hc1, download_dead_primary_cache_hit c1 name v data hlk⟩

/-- Witness for C5: the concrete first download of the counterexample setup,
followed by the second download against a fully failing primary backend. -/
theorem C5_second_download_survives_dead_primary_witness :
    ((Repository.download mapOps mapOps
        [(INDEX_KEY, Blob.json (indexToJson
            (SkillsIndex.mk [⟨"s", "d", "u", [("1.0.0", "skills/s/1.0.0/s.skill")]⟩]))),
         ("skills/s/1.0.0/s.skill", Blob.bytes [9])]
        (some ([] : MapStore)) "s" (some "1.0.0")).1 = .ok (Blob.bytes [9])) ∧
    ∃ c1, (Repository.download mapOps mapOps
        [(INDEX_KEY, Blob.json (indexToJson
            (SkillsIndex.mk [⟨"s", "d", "u", [("1.0.0", "skills/s/1.0.0/s.skill")]⟩]))),
         ("skills/s/1.0.0/s.skill", Blob.bytes [9])]
        (some ([] : MapStore)) "s" (some "1.0.0")).2.2 = some c1 ∧
      (Repository.download deadOps mapOps () (some c1) "s" (some "1.0.0")).1
        = .ok (Blob.bytes [9]) :=
  ⟨rfl,
   C5_second_download_survives_dead_primary mapOps
     [(INDEX_KEY, Blob.json (indexToJson
         (SkillsIndex.mk [⟨"s", "d", "u", [("1.0.0", "skills/s/1.0.0/s.skill")]⟩]))),
      ("skills/s/1.0.0/s.skill", Blob.bytes [9])]
     ([] : MapStore) "s" "1.0.0" (Blob.bytes [9]) rfl⟩

/-! ### C4 and C9: the install-resolution cascade -/

/-- C9: when explicit single-source flags are set, exactly one attempt is
made, chosen by the fixed precedence `local_only` over `remote_only` over
`github_only`, and that attempt's outcome — success or failure — is the
final result (no cascade to the other flagged sources). -/
theorem C9_explicit_flag_precedence (cfg : Option RepositoryConfig) (opts : InstallOptions)
    (la ra ga : Except ResolveErr ρ) :
    (opts.local_only = true →
      resolve_and_install cfg opts la ra ga = ([.localSrc], install_from_local cfg la)) ∧
    (opts.local_only = false → opts.remote_only = true →
      resolve_and_install cfg opts la ra ga = ([.remoteSrc], install_from_remote cfg ra)) ∧
    (opts.local_only = false → opts.remote_only = false → opts.github_only = true →
      resolve_and_install cfg opts la ra ga = ([.githubSrc], install_from_github ga)) := by
  refine ⟨?_, ?_, ?_⟩
  · intro h1
    simp [resolve_and_install, h1]
  · intro h1 h2
    simp [resolve_and_install, h1, h2]
  · intro h1 h2 h3
    simp [resolve_and_install, h1, h2, h3]

/-- Witness for C9: with all three flags set, only the local attempt is made
and its failure is final; with remote and github set, only the remote
attempt is made. -/
theorem C9_explicit_flag_precedence_witness :
    (resolve_and_install (some ⟨true, true⟩) ⟨true, true, true⟩
        (.error (.attemptFailed .localSrc 1)) (.ok 0) (.ok 0)
      = ([.localSrc], .error (.attemptFailed .localSrc 1))) ∧
    (resolve_and_install (some ⟨true, true⟩) ⟨false, true, true⟩
        (.error (.attemptFailed .localSrc 1)) (.ok 7) (.ok 0)
      = ([.remoteSrc], .ok (.remoteSrc, 7))) ∧
    (resolve_and_install (some ⟨true, true⟩) ⟨false, false, true⟩
        (.error (.attemptFailed .localSrc 1)) (.ok 7) (.ok 9)
      = ([.githubSrc], .ok (.githubSrc, 9))) :=
  ⟨(C9_explicit_flag_precedence (some ⟨true, true⟩) ⟨true, true, true⟩
      (.error (.attemptFailed .localSrc 1)) (.ok 0) (.ok 0)).1 rfl,
   (C9_explicit_flag_precedence (some ⟨true, true⟩) ⟨false, true, true⟩
      (.error (.attemptFailed .localSrc 1)) (.ok 7) (.ok 0)).2.1 rfl rfl,
   (C9_explicit_flag_precedence (some ⟨true, true⟩) ⟨false, false, true⟩
      (.error (.attemptFailed .localSrc 1)) (.ok 7) (.ok 9)).2.2 rfl rfl rfl⟩

/-- C4: with no explicit source flag, `resolve_and_install` tries local
first iff a local repository is configured (any local failure falls
through), then remote iff a remote is configured and local did not succeed,
then unconditionally GitHub; successes are tagged with their source, and
when every source fails the surfaced error is the GitHub attempt's error. -/
theorem C4_cascade_order (cfg : Option RepositoryConfig) (opts : InstallOptions)
    (la ra ga : Except ResolveErr ρ)
    (h1 : opts.local_only = false) (h2 : opts.remote_only = false)
    (h3 : opts.github_only = false) :
    (cfg = none →
      resolve_and_install cfg opts la ra ga = ([.githubSrc], install_from_github ga)) ∧
    (∀ rc r, cfg = some rc → rc.has_local = true → la = .ok r →
      resolve_and_install cfg opts la ra ga = ([.localSrc], .ok (.localSrc, r))) ∧
    (∀ rc, cfg = some rc → rc.has_local = false →
      .localSrc ∉ (resolve_and_install cfg opts la ra ga).1) ∧
    (∀ rc e r, cfg = some rc → rc.has_local = true → la = .error e →
      rc.has_remote = true → ra = .ok r →
      resolve_and_install cfg opts la ra ga = ([.localSrc, .remoteSrc], .ok (.remoteSrc, r))) ∧
    (∀ rc, cfg = some rc → rc.has_remote = false →
      .remoteSrc ∉ (resolve_and_install cfg opts la ra ga).1) ∧
    (∀ rc e₁ e₂, cfg = some rc → rc.has_local = true → la = .error e₁ →
      rc.has_remote = true → ra = .error e₂ →
      resolve_and_install cfg opts la ra ga
        = ([.localSrc, .remoteSrc, .githubSrc], install_from_github ga)) ∧
    (∀ rc e₁, cfg = some rc → rc.has_local = true → la = .error e₁ →
      rc.has_remote = false →
      resolve_and_install cfg opts la ra ga = ([.localSrc, .githubSrc], install_from_github ga)) ∧
    (∀ rc r, cfg = some rc → rc.has_local = false → rc.has_remote = true → ra = .ok r →
      resolve_and_install cfg opts la ra ga = ([.remoteSrc], .ok (.remoteSrc, r))) ∧
    (∀ rc e₂, cfg = some rc → rc.has_local = false → rc.has_remote = true → ra = .error e₂ →
      resolve_and_install cfg opts la ra ga
        = ([.remoteSrc, .githubSrc], install_from_github ga)) ∧
    (∀ rc, cfg = some rc → rc.has_local = false → rc.has_remote = false →
      resolve_and_install cfg opts la ra ga = ([.githubSrc], install_from_github ga)) ∧
    (∀ r, ga = .ok r → install_from_github ga = .ok (.githubSrc, r)) ∧
    (∀ e, ga = .error e → install_from_github ga = .error e) := by
  refine ⟨?_, ?_, ?_, ?_, ?_, ?_, ?_, ?_, ?_, ?_, ?_, ?_⟩
  · intro hc
    subst hc
    simp [resolve_and_install, h1, h2, h3]
  · intro rc r hc hl hla
    subst hc hla
    simp [resolve_and_install, h1, h2, h3, hl, install_from_local]
  · intro rc hc hl
    subst hc
    simp only [resolve_and_install, h1, h2, h3, Bool.false_eq_true, if_false, hl]
    cases hr : rc.has_remote
    · simp
    · cases hra : ra with
      | ok r => simp [install_from_remote, hr]
      | error e => simp [install_from_remote, hr]
  · intro rc e r hc hl hla hr hra
    subst hc hla hra
    simp [resolve_and_install, h1, h2, h3, hl, hr, install_from_local, install_from_remote]
  · intro rc hc hr
    subst hc
    simp only [resolve_and_install, h1, h2, h3, Bool.false_eq_true, if_false]
    cases hl : rc.has_local
    · simp only [Bool.false_eq_true, if_false, hr]
      simp
    · simp only [if_true]
      cases hla : la with
      | ok r => simp [install_from_local]
      | error e => simp [install_from_local, hr]
  · intro rc e₁ e₂ hc hl hla hr hra
    subst hc hla hra
    simp [resolve_and_install, h1, h2, h3, hl, hr, install_from_local, install_from_remote]
  · intro rc e₁ hc hl hla hr
    subst hc hla
    simp [resolve_and_install, h1, h2, h3, hl, hr, install_from_local]
  · intro rc r hc hl hr hra
    subst hc hra
    simp [resolve_and_install, h1, h2, h3, hl, hr, install_from_remote]
  · intro rc e₂ hc hl hr hra
    subst hc hra
    simp [resolve_and_install, h1, h2, h3, hl, hr, install_from_remote]
  · intro rc hc hl hr
    subst hc
    simp [resolve_and_install, h1, h2, h3, hl, hr]
  · intro r hga
    subst hga
    rfl
  · intro e hga
    subst hga
    rfl

/-- Witness for C4: a remote-only configuration with the local repository
missing the skill resolves from the remote source; with both repository
sources failing, the GitHub attempt's error is surfaced. -/
theorem C4_cascade_order_witness :
    (resolve_and_install (some ⟨true, true⟩) ⟨false, false, false⟩
        (.error (.attemptFailed .localSrc 1)) (.ok 7) (.ok 9)
      = ([.localSrc, .remoteSrc], .ok (.remoteSrc, 7))) ∧
    (resolve_and_install (some ⟨true, true⟩) ⟨false, false, false⟩
        (.error (.attemptFailed .localSrc 1) : Except ResolveErr Nat)
        (.error (.attemptFailed .remoteSrc 2)) (.error (.attemptFailed .githubSrc 3))
      = ([.localSrc, .remoteSrc, .githubSrc], .error (.attemptFailed .githubSrc 3))) :=
  ⟨(C4_cascade_order (some ⟨true, true⟩) ⟨false, false, false⟩
      (.error (.attemptFailed .localSrc 1)) (.ok 7) (.ok 9) rfl rfl rfl).2.2.2.1
      ⟨true, true⟩ (.attemptFailed .localSrc 1) 7 rfl rfl rfl rfl rfl,
   by
    have h := (C4_cascade_order (some ⟨true, true⟩) ⟨false, false, false⟩
      (.error (.attemptFailed .localSrc 1) : Except ResolveErr Nat)
      (.error (.attemptFailed .remoteSrc 2)) (.error (.attemptFailed .githubSrc 3)) rfl rfl rfl)
    rw [h.2.2.2.2.2.1 ⟨true, true⟩ (.attemptFailed .localSrc 1) (.attemptFailed .remoteSrc 2)
      rfl rfl rfl rfl rfl]
    rw [h.2.2.2.2.2.2.2.2.2.2.2 (.attemptFailed .githubSrc 3) rfl]⟩

/-! ### C7 and C10: Repository::delete -/

theorem load_index_traced (ops : StoreOps σ) (s : σ) (t : List StoreOp) :
    load_index (ops.traced) (s, t)
      = ((load_index ops s).1, ((load_index ops s).2, t ++ [.getOp INDEX_KEY])) := rfl

theorem save_index_traced (ops : StoreOps σ) (s : σ) (t : List StoreOp) (idx : SkillsIndex) :
    save_index (ops.traced) (s, t) idx
      = ((save_index ops s idx).1,
         ((save_index ops s idx).2, t ++ [.putOp INDEX_KEY (.json (indexToJson idx))])) := rfl

theorem deleteVersionKeys_traced (ops : StoreOps σ) (s : σ) (t : List StoreOp) (n v : String) :
    deleteVersionKeys (ops.traced) (s, t) n v
      = (deleteVersionKeys ops s n v,
         t ++ [.delOp (skillKey n v), .delOp (changelogKey n v), .delOp (sourceKey n v)]) := by
  show ((ops.deleteObject (ops.deleteObject (ops.deleteObject s (skillKey n v)).2
          (changelogKey n v)).2 (sourceKey n v)).2,
        ((t ++ [.delOp (skillKey n v)]) ++ [.delOp (changelogKey n v)]) ++ [.delOp (sourceKey n v)])
      = _
  simp [deleteVersionKeys, List.append_assoc]

theorem deleteAllVersionKeys_traced (ops : StoreOps σ) (n : String)
    (vers : List (String × String)) :
    ∀ (s : σ) (t : List StoreOp),
      ∃ dels, (∀ op ∈ dels, ∃ k, op = StoreOp.delOp k) ∧
        deleteAllVersionKeys (ops.traced) (s, t) n vers
          = (deleteAllVersionKeys ops s n vers, t ++ dels) := by
  induction vers with
  | nil =>
    intro s t
    exact ⟨[], by simp, by simp [deleteAllVersionKeys]⟩
  | cons p ps ih =>
    intro s t
    obtain ⟨dels, hdels, heq⟩ := ih (deleteVersionKeys ops s n p.1)
      (t ++ [.delOp (skillKey n p.1), .delOp (changelogKey n p.1), .delOp (sourceKey n p.1)])
    refine ⟨[StoreOp.delOp (skillKey n p.1), StoreOp.delOp (changelogKey n p.1),
      StoreOp.delOp (sourceKey n p.1)] ++ dels, ?_, ?_⟩
    · intro op hop
      rcases List.mem_append.mp hop with h | h
      · rcases List.mem_cons.mp h with rfl | h
        · exact ⟨_, rfl⟩
        rcases List.mem_cons.mp h with rfl | h
        · exact ⟨_, rfl⟩
        rcases List.mem_cons.mp h with rfl | h
        · exact ⟨_, rfl⟩
        · cases h
      · exact hdels op h
    · show deleteAllVersionKeys (ops.traced)
        (deleteVersionKeys (ops.traced) (s, t) n p.1) n ps = _
      rw [deleteVersionKeys_traced, heq]
      simp [deleteAllVersionKeys, List.append_assoc]

theorem delete_traced_run_some (ops : StoreOps σ) (cOps : StoreOps κ) (s : σ)
    (cache : Option κ) (name v : String) (idx : SkillsIndex)
    (hload : (load_index ops s).1 = .ok idx) :
    ∃ dels s2,
      (∀ op ∈ dels, ∃ k, op = StoreOp.delOp k) ∧
      (Repository.delete (ops.traced) cOps (s, []) cache name (some v)).2.1.2
        = .getOp INDEX_KEY :: dels
            ++ [.putOp INDEX_KEY (.json (indexToJson (idx.remove_version name v).1))] ∧
      ((Repository.delete (ops.traced) cOps (s, []) cache name (some v)).1 = .ok ()
        ↔ (ops.putObject s2 INDEX_KEY
            (.json (indexToJson (idx.remove_version name v).1))).1 = .ok ()) ∧
      ((Repository.delete (ops.traced) cOps (s, []) cache name (some v)).1 = .ok () ∨
       ∃ e, (Repository.delete (ops.traced) cOps (s, []) cache name (some v)).1
         = .error (.save e)) := by
  simp only [Repository.delete, load_index_traced, hload, List.nil_append,
    deleteVersionKeys_traced, save_index_traced]
  refine ⟨[.delOp (skillKey name v), .delOp (changelogKey name v), .delOp (sourceKey name v)],
    deleteVersionKeys ops (load_index ops s).2 name v, ?_, ?_, ?_, ?_⟩
  · intro op hop
    rcases List.mem_cons.mp hop with rfl | h
    · exact ⟨_, rfl⟩
    rcases List.mem_cons.mp h with rfl | h
    · exact ⟨_, rfl⟩
    rcases List.mem_cons.mp h with rfl | h
    · exact ⟨_, rfl⟩
    · cases h
  · cases hsv : (save_index ops (deleteVersionKeys ops (load_index ops s).2 name v)
        ((idx.remove_version name v).1)).1 with
    | ok u => simp [hsv]
    | error e => simp [hsv]
  · cases hsv : (save_index ops (deleteVersionKeys ops (load_index ops s).2 name v)
        ((idx.remove_version name v).1)).1 with
    | ok u =>
      simp only [hsv]
      constructor
      · intro _
        obtain rfl : u = () := rfl
        exact hsv
      · intro _
        trivial
    | error e =>
      simp only [hsv]
      constructor
      · intro h
        cases h
      · intro h
        rw [show (ops.putObject (deleteVersionKeys ops (load_index ops s).2 name v) INDEX_KEY
          (Blob.json (indexToJson (idx.remove_version name v).1))).1
            = (save_index ops (deleteVersionKeys ops (load_index ops s).2 name v)
              ((idx.remove_version name v).1)).1 from rfl, hsv] at h
        cases h
  · cases hsv : (save_index ops (deleteVersionKeys ops (load_index ops s).2 name v)
        ((idx.remove_version name v).1)).1 with
    | ok u => simp [hsv]
    | error e => simp [hsv]

theorem delete_traced_run_none (ops : StoreOps σ) (cOps : StoreOps κ) (s : σ)
    (cache : Option κ) (name : String) (idx : SkillsIndex)
    (hload : (load_index ops s).1 = .ok idx) :
    ∃ dels s2,
      (∀ op ∈ dels, ∃ k, op = StoreOp.delOp k) ∧
      (Repository.delete (ops.traced) cOps (s, []) cache name none).2.1.2
        = .getOp INDEX_KEY :: dels
            ++ [.putOp INDEX_KEY (.json (indexToJson (idx.remove_skill name).1))] ∧
      ((Repository.delete (ops.traced) cOps (s, []) cache name none).1 = .ok ()
        ↔ (ops.putObject s2 INDEX_KEY
            (.json (indexToJson (idx.remove_skill name).1))).1 = .ok ()) ∧
      ((Repository.delete (ops.traced) cOps (s, []) cache name none).1 = .ok () ∨
       ∃ e, (Repository.delete (ops.traced) cOps (s, []) cache name none).1
         = .error (.save e)) := by
  simp only [Repository.delete, load_index_traced, hload, List.nil_append]
  cases hf : idx.find_skill name with
  | none =>
    simp only [hf, save_index_traced]
    refine ⟨[], (load_index ops s).2, by simp, ?_, ?_, ?_⟩
    · cases hsv : (save_index ops (load_index ops s).2 ((idx.remove_skill name).1)).1 with
      | ok u => simp [hsv]
      | error e => simp [hsv]
    · cases hsv : (save_index ops (load_index ops s).2 ((idx.remove_skill name).1)).1 with
      | ok u =>
        simp only [hsv]
        constructor
        · intro _
          obtain rfl : u = () := rfl
          exact hsv
        · intro _
          trivial
      | error e =>
        simp only [hsv]
        constructor
        · intro h
          cases h
        · intro h
          rw [show (ops.putObject (load_index ops s).2 INDEX_KEY
            (Blob.json (indexToJson (idx.remove_skill name).1))).1
              = (save_index ops (load_index ops s).2 ((idx.remove_skill name).1)).1 from rfl,
            hsv] at h
          cases h
    · cases hsv : (save_index ops (load_index ops s).2 ((idx.remove_skill name).1)).1 with
      | ok u => simp [hsv]
      | error e => simp [hsv]
  | some entry =>
    simp only [hf]
    obtain ⟨dels, hdels, heq⟩ := deleteAllVersionKeys_traced ops name entry.versions
      (load_index ops s).2 [StoreOp.getOp INDEX_KEY]
    rw [heq]
    simp only [save_index_traced]
    refine ⟨dels, deleteAllVersionKeys ops (load_index ops s).2 name entry.versions,
      hdels, ?_, ?_, ?_⟩
    · cases hsv : (save_index ops
          (deleteAllVersionKeys ops (load_index ops s).2 name entry.versions)
          ((idx.remove_skill name).1)).1 with
      | ok u => simp [hsv]
      | error e => simp [hsv]
    · cases hsv : (save_index ops
          (deleteAllVersionKeys ops (load_index ops s).2 name entry.versions)
          ((idx.remove_skill name).1)).1 with
      | ok u =>
        simp only [hsv]
        constructor
        · intro _
          obtain rfl : u = () := rfl
          exact hsv
        · intro _
          trivial
      | error e =>
        simp only [hsv]
        constructor
        · intro h
          cases h
        · intro h
          rw [show (ops.putObject
            (deleteAllVersionKeys ops (load_index ops s).2 name entry.versions) INDEX_KEY
            (Blob.json (indexToJson (idx.remove_skill name).1))).1
              = (save_index ops
                (deleteAllVersionKeys ops (load_index ops s).2 name entry.versions)
                ((idx.remove_skill name).1)).1 from rfl, hsv] at h
          cases h
    · cases hsv : (save_index ops
          (deleteAllVersionKeys ops (load_index ops s).2 name entry.versions)
          ((idx.remove_skill name).1)).1 with
      | ok u => simp [hsv]
      | error e => simp [hsv]

/-- C7: in `Repository::delete` against an instrumented primary backend,
either the index load fails (the operation surfaces that error after the
single index read), or the primary-store operation sequence is exactly one
index read, then only object deletions, then exactly one index save; the
operation succeeds iff that save put succeeds, and otherwise fails only with
the save's error — object-delete outcomes never affect the result. -/
theorem C7_delete_saves_index_once (ops : StoreOps σ) (cOps : StoreOps κ) (s : σ)
    (cache : Option κ) (name : String) (version : Option String) :
    (∃ e, (Repository.delete (ops.traced) cOps (s, []) cache name version).1
        = .error (.index e) ∧
      (Repository.delete (ops.traced) cOps (s, []) cache name version).2.1.2
        = [.getOp INDEX_KEY]) ∨
    (∃ dels idx2 s2,
      (∀ op ∈ dels, ∃ k, op = StoreOp.delOp k) ∧
      (Repository.delete (ops.traced) cOps (s, []) cache name version).2.1.2
        = .getOp INDEX_KEY :: dels ++ [.putOp INDEX_KEY (.json (indexToJson idx2))] ∧
      ((Repository.delete (ops.traced) cOps (s, []) cache name version).1 = .ok ()
        ↔ (ops.putObject s2 INDEX_KEY (.json (indexToJson idx2))).1 = .ok ()) ∧
      ((Repository.delete (ops.traced) cOps (s, []) cache name version).1 = .ok () ∨
       ∃ e, (Repository.delete (ops.traced) cOps (s, []) cache name version).1
         = .error (.save e))) := by
  cases hL : (load_index ops s).1 with
  | error e =>
    left
    refine ⟨e, ?_, ?_⟩ <;>
      simp [Repository.delete, load_index_traced, hL]
  | ok idx =>
    right
    cases version with
    | some v =>
      obtain ⟨dels, s2, h1, h2, h3, h4⟩ :=
        delete_traced_run_some ops cOps s cache name v idx hL
      exact ⟨dels, (idx.remove_version name v).1, s2, h1, h2, h3, h4⟩
    | none =>
      obtain ⟨dels, s2, h1, h2, h3, h4⟩ :=
        delete_traced_run_none ops cOps s cache name idx hL
      exact ⟨dels, (idx.remove_skill name).1, s2, h1, h2, h3, h4⟩

theorem updateFirstEntry_id (l : List IndexEntry) (n : String) (f : IndexEntry → IndexEntry)
    (h : ∀ e, l.find? (fun s => s.name == n) = some e → f e = e) :
    updateFirstEntry l n f = l := by
  induction l with
  | nil => rfl
  | cons e es ih =>
    simp only [updateFirstEntry]
    by_cases hc : (e.name == n) = true
    · rw [if_pos hc, h e (List.find?_cons_of_pos _ hc)]
    · rw [if_neg hc]
      congr 1
      refine ih (fun e' he' => h e' ?_)
      rw [show List.find? (fun s => s.name == n) (e :: es)
          = List.find? (fun s => s.name == n) es from
        List.find?_cons_of_neg _ (by simpa using hc)]
      exact he'

theorem remove_skill_absent (idx : SkillsIndex) (n : String)
    (h : idx.find_skill n = none) : (idx.remove_skill n).1 = idx := by
  have hfilter : idx.skills.filter (fun s => !(s.name == n)) = idx.skills := by
    apply List.filter_eq_self.mpr
    intro a ha
    have := List.find?_eq_none.mp h a ha
    simpa using this
  show SkillsIndex.mk (idx.skills.filter (fun s => !(s.name == n))) = idx
  rw [hfilter]

theorem versions_remove_absent (m : List (String × String)) (v : String)
    (h : Versions.get m v = none) : Versions.remove m v = m := by
  apply List.filter_eq_self.mpr
  intro p hp
  unfold Versions.get at h
  cases hf : m.find? (fun q => q.1 == v) with
  | some q => rw [hf] at h; cases h
  | none =>
    have := List.find?_eq_none.mp hf p hp
    simpa using this

theorem remove_version_noop (idx : SkillsIndex) (n v : String) (hwf : Wf idx)
    (h : idx.find_skill n = none ∨
      ∃ e, idx.find_skill n = some e ∧ Versions.get e.versions v = none) :
    (idx.remove_version n v).1 = idx := by
  rcases h with h | ⟨e, he, hv⟩
  · unfold SkillsIndex.remove_version
    rw [h]
  · unfold SkillsIndex.remove_version
    rw [he]
    simp only
    have hrm : Versions.remove e.versions v = e.versions := versions_remove_absent _ _ hv
    have hne : e.versions ≠ [] := hwf e (List.mem_of_find?_eq_some he)
    have hempty : ¬((Versions.remove e.versions v).isEmpty = true) := by
      rw [hrm]
      simpa [List.isEmpty_iff] using hne
    rw [if_neg hempty]
    have hid : updateFirstEntry idx.skills n
        (fun e' => { e' with versions := Versions.remove e'.versions v }) = idx.skills := by
      apply updateFirstEntry_id
      intro e' he'
      have hee : e' = e := by
        rw [SkillsIndex.find_skill] at he
        rw [he'] at he
        exact Option.some_inj.mp he
      subst hee
      show IndexEntry.mk e'.name e'.description e'.llms_txt_url
        (Versions.remove e'.versions v) = e'
      rw [versions_remove_absent _ _ hv]
    rw [hid]

/-- C10: `Repository::delete` of a skill or version absent from the loaded
index (the index satisfying the no-empty-entry invariant) saves the index
unchanged — the single index save records exactly the loaded index — and
the operation succeeds whenever that save succeeds, failing only with the
save's error otherwise. -/
theorem C10_delete_absent_idempotent (ops : StoreOps σ) (cOps : StoreOps κ) (s : σ)
    (cache : Option κ) (name : String) (version : Option String) (idx : SkillsIndex)
    (hload : (load_index ops s).1 = .ok idx)
    (hwf : Wf idx)
    (habsent : idx.find_skill name = none ∨
      (∃ v e, version = some v ∧ idx.find_skill name = some e ∧
        Versions.get e.versions v = none)) :
    ∃ dels,
      (∀ op ∈ dels, ∃ k, op = StoreOp.delOp k) ∧
      (Repository.delete (ops.traced) cOps (s, []) cache name version).2.1.2
        = .getOp INDEX_KEY :: dels ++ [.putOp INDEX_KEY (.json (indexToJson idx))] ∧
      ((Repository.delete (ops.traced) cOps (s, []) cache name version).1 = .ok () ∨
       ∃ e, (Repository.delete (ops.traced) cOps (s, []) cache name version).1
         = .error (.save e)) := by
  cases version with
  | some v =>
    have hnoop : (idx.remove_version name v).1 = idx := by
      apply remove_version_noop idx name v hwf
      rcases habsent with h | ⟨v', e, hv', he, hg⟩
      · exact Or.inl h
      · have hvv : v' = v := (Option.some_inj.mp hv').symm
        subst hvv
        exact Or.inr ⟨e, he, hg⟩
    obtain ⟨dels, s2, h1, h2, h3, h4⟩ :=
      delete_traced_run_some ops cOps s cache name v idx hload
    rw [hnoop] at h2
    exact ⟨dels, h1, h2, h4⟩
  | none =>
    have hf : idx.find_skill name = none := by
      rcases habsent with h | ⟨v', e, hv', _, _⟩
      · exact h
      · cases hv'
    have hnoop : (idx.remove_skill name).1 = idx := remove_skill_absent idx name hf
    obtain ⟨dels, s2, h1, h2, h3, h4⟩ :=
      delete_traced_run_none ops cOps s cache name idx hload
    rw [hnoop] at h2
    exact ⟨dels, h1, h2, h4⟩

/-- Witness for C10: deleting an absent skill from a concrete one-entry
index succeeds and saves the loaded index unchanged. -/
theorem C10_delete_absent_idempotent_witness :
    ((load_index mapOps
        [(INDEX_KEY, Blob.json (indexToJson
          (SkillsIndex.mk [⟨"a", "d", "u", [("1.0.0", "p")]⟩])))]).1
      = .ok (SkillsIndex.mk [⟨"a", "d", "u", [("1.0.0", "p")]⟩])) ∧
    Wf (SkillsIndex.mk [⟨"a", "d", "u", [("1.0.0", "p")]⟩]) ∧
    ((SkillsIndex.mk [⟨"a", "d", "u", [("1.0.0", "p")]⟩]).find_skill "b" = none) ∧
    (∃ dels,
      (∀ op ∈ dels, ∃ k, op = StoreOp.delOp k) ∧
      (Repository.delete (mapOps.traced) mapOps
          (([(INDEX_KEY, Blob.json (indexToJson
            (SkillsIndex.mk [⟨"a", "d", "u", [("1.0.0", "p")]⟩])))] : MapStore), [])
          (none : Option MapStore) "b" none).2.1.2
        = .getOp INDEX_KEY :: dels ++ [.putOp INDEX_KEY (.json (indexToJson
            (SkillsIndex.mk [⟨"a", "d", "u", [("1.0.0", "p")]⟩])))] ∧
      ((Repository.delete (mapOps.traced) mapOps
          (([(INDEX_KEY, Blob.json (indexToJson
            (SkillsIndex.mk [⟨"a", "d", "u", [("1.0.0", "p")]⟩])))] : MapStore), [])
          (none : Option MapStore) "b" none).1 = .ok () ∨
       ∃ e, (Repository.delete (mapOps.traced) mapOps
          (([(INDEX_KEY, Blob.json (indexToJson
            (SkillsIndex.mk [⟨"a", "d", "u", [("1.0.0", "p")]⟩])))] : MapStore), [])
          (none : Option MapStore) "b" none).1 = .error (.save e))) := by
  refine ⟨rfl, by unfold Wf; decide, by decide, ?_⟩
  exact C10_delete_absent_idempotent mapOps mapOps
    [(INDEX_KEY, Blob.json (indexToJson
      (SkillsIndex.mk [⟨"a", "d", "u", [("1.0.0", "p")]⟩])))]
    none "b" none (SkillsIndex.mk [⟨"a", "d", "u", [("1.0.0", "p")]⟩])
    rfl (by unfold Wf; decide) (Or.inl (by decide))
